import Mathlib

/-!
# go-pyroscope-demo: trace/profile correlation layer

A shallow embedding of `main.go`:

* the process-wide `serviceId` counter (`resetServiceID`, `getCurServID`,
  `getNextServID`, `getCurServName`, `getNextServName`), sequentially and as
  interleaved atomic steps;
* the pprof label binder (`StartSpanFromContext`, `OtelTraceWrapper.Finish`);
* the `/movies` handler: its wait-group join and its in-place `q` filter;
* `fibonacci` / `fibonacciWithTrace`.

Library code that `main.go` calls (the OpenTelemetry tracer, `runtime/pprof`,
`strconv`, `strings`, `sync`) is modelled by its documented behaviour or taken
as a parameter; every such place says so.
-/

namespace PyroscopeDemo

/-! ## The `serviceId` counter -/

/-- Smallest value of a Go `int64`. -/
def minInt64 : Int := -(2 ^ 63)

/-- Largest value of a Go `int64`. -/
def maxInt64 : Int := 2 ^ 63 - 1

/-- Two's-complement wrap of an integer into the `int64` range: what Go's
`int64` arithmetic does on overflow. -/
def wrapInt64 (x : Int) : Int := (x + 2 ^ 63) % 2 ^ 64 - 2 ^ 63

/-- Go's `strconv.FormatInt(i, 10)`: the decimal digits of `i`, with a leading
`-` for a negative number. -/
def FormatInt10 (i : Int) : String :=
  if i < 0 then "-" ++ Nat.repr i.natAbs else Nat.repr i.toNat

/-- The constant `BaseServiceName`. -/
def BaseServiceName : String := "go-pyroscope-demo"

/-- Go's `fmt.Sprintf("%s-%s", a, b)`. -/
def sprintfDash (a b : String) : String := a ++ "-" ++ b

/-- The method `serviceId.Add(delta)` of `atomic.Int64` as a state update: the
new counter value, wrapped to `int64`. (The value `Add` returns is the new
counter; `getNextServID` discards it.) -/
def atomicAdd (c delta : Int) : Int := wrapInt64 (c + delta)

/-- The function `resetServiceID`: `serviceId.Store(0)`. The argument is the
counter before, the result the counter after. -/
def resetServiceID (_c : Int) : Int := 0

/-- The function `getCurServID`: `strconv.FormatInt(serviceId.Load(), 10)`.
Returns the string and the counter after the call. -/
def getCurServID (c : Int) : String × Int := (FormatInt10 c, c)

/-- The function `getNextServID`, run with no other task touching the counter:
`serviceId.Add(1)` and then `getCurServID()`. -/
def getNextServID (c : Int) : String × Int := getCurServID (atomicAdd c 1)

/-- The function `getCurServName`. -/
def getCurServName (c : Int) : String × Int :=
  let r := getCurServID c
  (sprintfDash BaseServiceName r.1, r.2)

/-- The function `getNextServName`. -/
def getNextServName (c : Int) : String × Int :=
  let r := getNextServID c
  (sprintfDash BaseServiceName r.1, r.2)

/-- The calls a sequential run can make on the counter. -/
inductive ServOp where
  | reset
  | cur
  | next
  | curName
  | nextName
  deriving DecidableEq, Repr

/-- A sequential run's state: the counter, and the string returned by the most
recent `getNextServID` call since the last `resetServiceID` (`none` when there
was no such call). `getNextServName` calls `getNextServID` once. -/
structure ServRun where
  counter : Int
  lastNext : Option String
  deriving DecidableEq, Repr

/-- One call of a sequential run. -/
def stepOp (s : ServRun) : ServOp → ServRun
  | .reset => ⟨resetServiceID s.counter, none⟩
  | .cur => ⟨(getCurServID s.counter).2, s.lastNext⟩
  | .next => ⟨(getNextServID s.counter).2, some (getNextServID s.counter).1⟩
  | .curName => ⟨(getCurServName s.counter).2, s.lastNext⟩
  | .nextName => ⟨(getNextServName s.counter).2, some (getNextServID s.counter).1⟩

/-- A sequential run: the calls of `ops`, in order. -/
def runOps (ops : List ServOp) (s : ServRun) : ServRun := ops.foldl stepOp s

/-! ### `getNextServID` as two atomic steps of concurrent tasks -/

/-- Where one in-flight `getNextServID` call stands: not started, past its
`serviceId.Add(1)`, or returned (with the string it returned). -/
inductive CallPC where
  | start
  | added
  | returned (r : String)
  deriving DecidableEq, Repr

/-- The shared counter and the in-flight `getNextServID` calls. -/
structure ConcState where
  counter : Int
  calls : List CallPC
  deriving DecidableEq, Repr

/-- Call `i` performs its next atomic step: `serviceId.Add(1)` if it has not
started, otherwise the `serviceId.Load()` of `getCurServID` (and returns the
formatted value). A returned or absent call does nothing. -/
def stepCall (s : ConcState) (i : Nat) : ConcState :=
  match s.calls[i]? with
  | some .start => ⟨atomicAdd s.counter 1, s.calls.set i .added⟩
  | some .added => ⟨s.counter, s.calls.set i (.returned (FormatInt10 s.counter))⟩
  | _ => s

/-- The state right after `resetServiceID`, with `k` calls about to start. -/
def initCalls (c : Int) (k : Nat) : ConcState :=
  ⟨resetServiceID c, List.replicate k .start⟩

/-- An interleaving: the schedule names, step by step, the call that moves. -/
def runSchedule (sched : List Nat) (s : ConcState) : ConcState :=
  sched.foldl stepCall s

/-- The strings the calls returned, in call order (`none`: not returned). -/
def returnedValues (s : ConcState) : List (Option String) :=
  s.calls.map fun
    | .returned r => some r
    | _ => none

/-! ## pprof labels, contexts and the tracer -/

/-- The label map of `runtime/pprof`: a finite map from keys to values, kept
as an association list and read through `LabelMap.get`. -/
abbrev LabelMap := List (String × String)

/-- The value a label map gives a key. -/
def LabelMap.get (m : LabelMap) (k : String) : Option String := List.lookup k m

/-- Assignment `m[k] = v` on a label map. -/
def LabelMap.put (m : LabelMap) (k v : String) : LabelMap :=
  (k, v) :: m.filter fun p => p.1 != k

/-- The identifiers `span.SpanContext()` gives: OpenTelemetry's `TraceID`
(`[16]byte`) and `SpanID` (`[8]byte`), as their bytes. -/
structure SpanContext where
  traceID : List (Fin 256)
  spanID : List (Fin 256)
  deriving DecidableEq, Repr

/-- A `context.Context`, never nil: the pprof label map it carries (empty when
it carries none) and the span `trace.ContextWithSpan` stored in it. -/
structure Context where
  labels : LabelMap
  span : Option SpanContext
  deriving DecidableEq, Repr

/-- A `trace.Span`, as far as `main.go` reads it: its `SpanContext()`. -/
structure Span where
  spanContext : SpanContext
  deriving DecidableEq, Repr

/-- The only span start option `main.go` builds:
`trace.WithAttributes(attribute.String(key, value))`. -/
structure SpanStartOption where
  key : String
  value : String
  deriving DecidableEq, Repr

/-- What the calls of one goroutine act on: the pprof label set bound to the
goroutine, and the tracer's own state. -/
structure Goroutine (σ : Type) where
  labels : LabelMap
  tracer : σ

/-- The tracer `otelTracer`, a parameter of the model: `Start` returns the
derived context and the span, `End` is `span.End()`. Either may change the
tracer's state and the goroutine's labels. -/
structure Tracer (σ : Type) where
  Start : Context → String → List SpanStartOption → Goroutine σ →
    (Context × Span) × Goroutine σ
  End : Span → Goroutine σ → Goroutine σ

/-- The values `Number2String` is applied to, a Go `any`. -/
inductive GoValue where
  | int (i : Int)
  | str (s : String)
  | spanID (b : List (Fin 256))
  | traceID (b : List (Fin 256))
  deriving DecidableEq, Repr

/-- One lowercase hexadecimal digit. -/
def hexDigit (n : Nat) : Char := "0123456789abcdef".toList.getD n '0'

/-- Go's `hex.EncodeToString`: two lowercase hex digits a byte. -/
def hexEncode (b : List (Fin 256)) : String :=
  String.mk (b.flatMap fun x => [hexDigit (x.val / 16), hexDigit (x.val % 16)])

/-- The function `Number2String`: `fmt.Sprintf("%v", n)`. An integer prints in
decimal, a string as itself, and a `SpanID` or `TraceID` through its `String`
method, the hex encoding of its bytes. -/
def Number2String : GoValue → String
  | .int i => FormatInt10 i
  | .str s => s
  | .spanID b => hexEncode b
  | .traceID b => hexEncode b

/-- Go's `pprof.WithLabels(ctx, pprof.Labels(k1, v1, ...))`: a context whose
label map is the parent's with each given label assigned in turn. -/
def WithLabels (ctx : Context) (labels : List (String × String)) : Context :=
  { ctx with labels := labels.foldl (fun m kv => m.put kv.1 kv.2) ctx.labels }

/-- Go's `pprof.SetGoroutineLabels(ctx)`: the goroutine's label set becomes the
one `ctx` carries. -/
def SetGoroutineLabels {σ : Type} (ctx : Context) (g : Goroutine σ) : Goroutine σ :=
  { g with labels := ctx.labels }

/-- The struct `OtelTraceWrapper`. `PreviousPProfCTx` may be nil (`none`). -/
structure OtelTraceWrapper where
  Span : Span
  SpanCtx : Context
  PreviousPProfCTx : Option Context
  deriving DecidableEq, Repr

/-- The method `OtelTraceWrapper.Finish`: `d.Span.End()`, then, when
`d.PreviousPProfCTx` is not nil, `pprof.SetGoroutineLabels(d.PreviousPProfCTx)`. -/
def OtelTraceWrapper.Finish {σ : Type} (tr : Tracer σ) (d : OtelTraceWrapper)
    (g : Goroutine σ) : Goroutine σ :=
  let g1 := tr.End d.Span g
  match d.PreviousPProfCTx with
  | some prev => SetGoroutineLabels prev g1
  | none => g1

/-- The function `StartSpanFromContext`. A nil `ctx` makes `pprof.WithLabels`
panic, so `ctx` is a (non-nil) `Context`. Returns the wrapper and the state
after the call. -/
def StartSpanFromContext {σ : Type} (tr : Tracer σ) (ctx : Context) (operationName : String)
    (opts : List SpanStartOption) (g : Goroutine σ) : OtelTraceWrapper × Goroutine σ :=
  let r := tr.Start ctx operationName opts g
  let wrapper : OtelTraceWrapper :=
    { SpanCtx := r.1.1, Span := r.1.2, PreviousPProfCTx := some ctx }
  let labeledCtx := WithLabels ctx
    [("span_id", Number2String (.spanID wrapper.Span.spanContext.spanID)),
     ("trace_id", Number2String (.traceID wrapper.Span.spanContext.traceID)),
     ("operation_name", operationName)]
  (wrapper, SetGoroutineLabels labeledCtx r.2)

/-- A properly nested sequence of `StartSpanFromContext` / `Finish` calls on
one goroutine. `span op c inner next`: start a span named `op` (from the
context `c`, or when `c` is `none` from the `SpanCtx` of the enclosing
wrapper), run `inner` inside it, `Finish` it, then go on with `next`. -/
inductive Nest where
  | done
  | span (op : String) (c : Option Context) (inner next : Nest)
  deriving Repr

/-- Runs a nested sequence; `ambient` is the context a span with `c = none`
starts from. -/
def runNest {σ : Type} (tr : Tracer σ) (ambient : Context) : Nest → Goroutine σ → Goroutine σ
  | .done, g => g
  | .span op c inner next, g =>
    let r := StartSpanFromContext tr (c.getD ambient) op [] g
    let g1 := runNest tr r.1.SpanCtx inner r.2
    let g2 := r.1.Finish tr g1
    runNest tr ambient next g2

/-- A concrete tracer, standing in for an OpenTelemetry SDK tracer: its state
counts the spans started; `Start` gives the span a fresh span id, the parent's
trace id (a fresh one without a parent), stores the span in the derived context
and leaves the pprof labels of the context and of the goroutine alone; `End`
changes nothing the model observes. -/
def countingTracer : Tracer Nat where
  Start := fun ctx _ _ g =>
    let n := g.tracer + 1
    let sc : SpanContext :=
      { traceID := match ctx.span with
          | some p => p.traceID
          | none => List.replicate 15 0 ++ [Fin.ofNat n],
        spanID := List.replicate 7 0 ++ [Fin.ofNat n] }
    (({ ctx with span := some sc }, ⟨sc⟩), { g with tracer := n })
  End := fun _ g => g

/-! ## The `/movies` handler: fan-out and join -/

/-- Where the handler goroutine stands, in source order: `resetServiceID()`;
`otelTracer.Start(newCtx, "/movies")` with `defer span.End()`; `wg.Add(2)`; the
two `go` statements; the response (copy, sort, filter, encode); `wg.Wait()`;
the return, which runs the deferred `span.End()`; and gone. No statement of
the handler panics (`FormValue`, `sort.Slice`, the filter loop and `Encode`
report errors by value), so the deferred call runs at the return only. -/
inductive HandlerPC where
  | reset
  | startSpan
  | wgAdd
  | goFib
  | goHttp
  | respond
  | wgWait
  | ret
  | exited
  deriving DecidableEq, Repr

/-- Where a spawned task stands: not spawned yet, running its body, at its
deferred `wg.Done()`, or past it. -/
inductive TaskPC where
  | notSpawned
  | body
  | deferred
  | signalled
  deriving DecidableEq, Repr

/-- The goroutines of one `/movies` request. -/
inductive Thread where
  | handler
  | fibTask
  | httpTask
  deriving DecidableEq, Repr

/-- The state of one `/movies` request: the three goroutines, the counter of
the `sync.WaitGroup`, and whether the root span was opened and ended. -/
structure Request where
  pc : HandlerPC
  fib : TaskPC
  http : TaskPC
  wg : Int
  spanOpen : Bool
  spanEnded : Bool
  deriving DecidableEq, Repr

/-- The state when the handler is entered. -/
def Request.init : Request :=
  { pc := .reset, fib := .notSpawned, http := .notSpawned, wg := 0,
    spanOpen := false, spanEnded := false }

/-- One step of a spawned task, with the wait-group counter: the body ends,
then the deferred `wg.Done()` decrements the counter. A task that is not
spawned or has signalled cannot move. -/
def stepTask (t : TaskPC) (wg : Int) : Option (TaskPC × Int) :=
  match t with
  | .notSpawned => none
  | .body => some (.deferred, wg)
  | .deferred => some (.signalled, wg - 1)
  | .signalled => none

/-- One step of the handler goroutine. `wg.Wait()` blocks (no step) while the
counter is not zero. -/
def stepHandler (s : Request) : Option Request :=
  match s.pc with
  | .reset => some { s with pc := .startSpan }
  | .startSpan => some { s with pc := .wgAdd, spanOpen := true }
  | .wgAdd => some { s with pc := .goFib, wg := s.wg + 2 }
  | .goFib => some { s with pc := .goHttp, fib := .body }
  | .goHttp => some { s with pc := .respond, http := .body }
  | .respond => some { s with pc := .wgWait }
  | .wgWait => if s.wg = 0 then some { s with pc := .ret } else none
  | .ret => some { s with pc := .exited, spanEnded := true }
  | .exited => none

/-- One step of the chosen goroutine; `none` when it cannot move. -/
def stepThread (s : Request) : Thread → Option Request
  | .handler => stepHandler s
  | .fibTask => (stepTask s.fib s.wg).map fun r => { s with fib := r.1, wg := r.2 }
  | .httpTask => (stepTask s.http s.wg).map fun r => { s with http := r.1, wg := r.2 }

/-- A schedule names, step by step, the goroutine the scheduler picks; a
goroutine that cannot move is passed over. -/
def runRequest (sched : List Thread) (s : Request) : Request :=
  sched.foldl (fun s t => (stepThread s t).getD s) s

/-! ## The `/movies` handler: the `q` filter -/

/-- The struct `Movie`. `VoteAverage` is decoded from JSON, so it is a finite
`float64`, kept as the rational it denotes. -/
structure Movie where
  Title : String
  VoteAverage : ℚ
  ReleaseDate : String
  deriving DecidableEq, Repr

/-- Go's `strings.Contains(s, substr)`. -/
def stringsContains (s substr : String) : Bool := decide (substr.toList <:+: s.toList)

/-- Go's `strings.ToUpper` on ASCII text: the letters `a`..`z` are mapped to
`A`..`Z`. (The handler's filter below takes the upper-casing function as a
parameter; this one serves for concrete ASCII inputs.) -/
def asciiToUpper (s : String) : String := String.mk (s.toList.map Char.toUpper)

/-- The body of the filter loop at index `idx`, on the slice contents and
`matchCount`: with `m := moviesCopy[idx]`, when the upper-cased title contains
`q` and `idx != matchCount`, `moviesCopy[matchCount] = moviesCopy[idx]` and
`matchCount++`. -/
def filterBody (ToUpper : String → String) (q : String) (st : List Movie × Nat) (idx : Nat) :
    List Movie × Nat :=
  match st.1[idx]? with
  | none => st
  | some m =>
    if stringsContains (ToUpper m.Title) q && idx != st.2 then
      (st.1.set st.2 m, st.2 + 1)
    else st

/-- The filter of the `/movies` handler on the sorted copy: for a non-empty `q`
the loop over `range moviesCopy` and the final `moviesCopy[:matchCount]`;
otherwise the copy itself. The result is the list the handler encodes. -/
def filterMovies (ToUpper : String → String) (q : String) (moviesCopy : List Movie) :
    List Movie :=
  if q != "" then
    let q := ToUpper q
    let st := (List.range moviesCopy.length).foldl (filterBody ToUpper q) (moviesCopy, 0)
    st.1.take st.2
  else moviesCopy

/-- What the claim describes: the movies whose upper-cased title contains the
upper-cased `q`, in order. -/
def matchingMovies (ToUpper : String → String) (q : String) (moviesCopy : List Movie) :
    List Movie :=
  moviesCopy.filter fun m => stringsContains (ToUpper m.Title) (ToUpper q)

/-! ## `fibonacci` -/

mutual

/-- The function `fibonacci`, without the tracer calls, which do not touch the
returned value. `wrap` is what an addition of Go `int`s does to the exact sum:
`wrapInt64` on a 64-bit platform, the identity for unbounded integers. `n - 1`
and `n - 2` are taken only for `n > 2` and do not overflow. -/
def fibonacciOn (wrap : Int → Int) (n : Int) : Int :=
  if _h : n ≤ 2 then 1
  else if n.tmod 31 = 0 then
    wrap (fibonacciWithTraceOn wrap (n - 1) + fibonacciWithTraceOn wrap (n - 2))
  else if n.tmod 37 = 0 then
    wrap (fibonacciWithTraceOn wrap (n - 1) + fibonacciWithTraceOn wrap (n - 2))
  else wrap (fibonacciOn wrap (n - 1) + fibonacciOn wrap (n - 2))
termination_by 2 * n.toNat
decreasing_by all_goals simp_wf; omega

/-- The function `fibonacciWithTrace`, without the tracer calls. -/
def fibonacciWithTraceOn (wrap : Int → Int) (n : Int) : Int :=
  wrap (fibonacciOn wrap (n - 1) + fibonacciOn wrap (n - 2))
termination_by 2 * n.toNat + 1
decreasing_by all_goals simp_wf; omega

end

/-- The function `fibonacci` on a 64-bit platform. -/
def fibonacci (n : Int) : Int := fibonacciOn wrapInt64 n

/-- The function `fibonacciWithTrace` on a 64-bit platform. -/
def fibonacciWithTrace (n : Int) : Int := fibonacciWithTraceOn wrapInt64 n

/-- The function `fibonacci` with integers taken as unbounded. -/
def fibonacciUnbounded (n : Int) : Int := fibonacciOn id n

/-- The Fibonacci numbers as the claim gives them: `F(1) = F(2) = 1` and
`F(n) = F(n-1) + F(n-2)` from `3` on (`F(0)` is not used). -/
def fibSpec : Nat → Nat
  | 0 => 0
  | 1 => 1
  | 2 => 1
  | n + 3 => fibSpec (n + 2) + fibSpec (n + 1)

/-! ## Auxiliary definitions for the statements -/

/-- How many `wg.Done()` calls a task still owes once it is spawned. -/
def TaskPC.owes : TaskPC → Int
  | .signalled => 0
  | _ => 1

/-- Whether the handler is past `wg.Wait()`. -/
def HandlerPC.pastWait : HandlerPC → Bool
  | .ret => true
  | .exited => true
  | _ => false

/-- The invariant of a `/movies` request: the root span is ended only by the
exited handler, a handler past `wg.Wait()` has both tasks signalled, and from
`wg.Add(2)` on the wait-group counter is the number of `wg.Done()` calls still
owed. -/
def Request.Inv (s : Request) : Prop :=
  (s.spanEnded = true → s.pc = .exited) ∧
  (s.pc.pastWait = true → s.fib = .signalled ∧ s.http = .signalled) ∧
  match s.pc with
  | .reset | .startSpan | .wgAdd => s.fib = .notSpawned ∧ s.http = .notSpawned ∧ s.wg = 0
  | .goFib => s.fib = .notSpawned ∧ s.http = .notSpawned ∧ s.wg = 2
  | .goHttp => s.fib ≠ .notSpawned ∧ s.http = .notSpawned ∧ s.wg = s.fib.owes + 1
  | _ => s.fib ≠ .notSpawned ∧ s.http ≠ .notSpawned ∧ s.wg = s.fib.owes + s.http.owes

/-- A context that carries no label and no span. -/
def emptyCtx : Context := ⟨[], none⟩

/-- Nested scenario, outer span: started from `emptyCtx` on a goroutine
without labels. -/
def outerSpan : OtelTraceWrapper × Goroutine Nat :=
  StartSpanFromContext countingTracer emptyCtx "outer" [] ⟨[], 0⟩

/-- Nested scenario, inner span: started from `outer.SpanCtx` right after. -/
def innerSpan : OtelTraceWrapper × Goroutine Nat :=
  StartSpanFromContext countingTracer outerSpan.1.SpanCtx "inner" [] outerSpan.2

/-- Double-close scenario: the span `w`, started from `emptyCtx`. -/
def firstSpan : OtelTraceWrapper × Goroutine Nat :=
  StartSpanFromContext countingTracer emptyCtx "w" [] ⟨[], 0⟩

/-- Double-close scenario: the span `s`, started after `w.Finish()` and left
open. -/
def laterSpan : OtelTraceWrapper × Goroutine Nat :=
  StartSpanFromContext countingTracer emptyCtx "s" [] (firstSpan.1.Finish countingTracer firstSpan.2)

/-- Three movies in sorted order; the first and the second match `alien`. -/
def sampleMovies : List Movie :=
  [⟨"Alien", 8, "1979-05-25"⟩, ⟨"Heat", 8, "1995-12-15"⟩, ⟨"Aliens", 7, "1986-07-18"⟩]

/-- A schedule of one `/movies` request in which the http task signals first
and the handler reaches `wg.Wait()` before the fibonacci task has finished. -/
def sampleSchedule : List Thread :=
  [.handler, .handler, .handler, .handler, .handler, .httpTask, .fibTask, .handler,
   .httpTask, .handler, .handler, .fibTask, .handler, .handler, .handler]

/-! ## Theorems: the `serviceId` counter -/

lemma wrapInt64_of_inRange (x : Int) (hlo : minInt64 ≤ x) (hhi : x ≤ maxInt64) :
    wrapInt64 x = x := by
  unfold wrapInt64
  unfold minInt64 at hlo
  unfold maxInt64 at hhi
  rw [Int.emod_eq_of_lt (by omega) (by omega)]
  omega

lemma atomicAdd_one (v : Int) (hlo : minInt64 ≤ v) (hhi : v < maxInt64) :
    atomicAdd v 1 = v + 1 := by
  unfold atomicAdd
  apply wrapInt64_of_inRange
  · unfold minInt64 at *; omega
  · omega

lemma sprintfDash_base (s : String) :
    sprintfDash BaseServiceName s = "go-pyroscope-demo-" ++ s := by
  have h : ("go-pyroscope-demo-" : String) = "go-pyroscope-demo" ++ "-" := by decide
  unfold sprintfDash BaseServiceName
  rw [h]

lemma runOps_counter (ops : List ServOp) :
    ∀ s : ServRun, ServOp.reset ∉ ops → minInt64 ≤ s.counter →
      s.counter + ops.length ≤ maxInt64 →
      s.counter ≤ (runOps ops s).counter ∧
        (runOps ops s).counter ≤ s.counter + ops.length := by
  induction ops with
  | nil => intro s _ _ _; simp [runOps]
  | cons o ops ih =>
    intro s hmem hlo hhi
    have hno : ServOp.reset ∉ ops := fun h => hmem (List.mem_cons_of_mem _ h)
    have ho : o ≠ ServOp.reset := fun h => hmem (by simp [h])
    simp only [List.length_cons, Nat.cast_add, Nat.cast_one] at hhi
    have hstep : s.counter ≤ (stepOp s o).counter ∧ (stepOp s o).counter ≤ s.counter + 1 := by
      cases o with
      | reset => exact absurd rfl ho
      | cur => simp [stepOp, getCurServID]
      | curName => simp [stepOp, getCurServName, getCurServID]
      | next =>
        simp only [stepOp, getNextServID, getCurServID]
        rw [atomicAdd_one _ hlo (by omega)]; omega
      | nextName =>
        simp only [stepOp, getNextServName, getNextServID, getCurServID]
        rw [atomicAdd_one _ hlo (by omega)]; omega
    have := ih (stepOp s o) hno (by omega) (by omega)
    simp only [runOps, List.foldl_cons, List.length_cons, Nat.cast_add, Nat.cast_one] at this ⊢
    omega

/-- C6. Run sequentially from a counter value `v` below the `int64` maximum,
`getNextServID` leaves the counter at `v + 1` and returns the decimal string of
`v + 1`, `getNextServName` returns `"go-pyroscope-demo-"` followed by that
string, and over any run of calls without a `resetServiceID` (that does not
reach the `int64` maximum) the counter does not decrease. -/
theorem getNextServID_sequential (v : Int) (hlo : minInt64 ≤ v) (hhi : v < maxInt64) :
    getNextServID v = (FormatInt10 (v + 1), v + 1) ∧
    getNextServName v = ("go-pyroscope-demo-" ++ FormatInt10 (v + 1), v + 1) ∧
    v < (getNextServID v).2 ∧
    ∀ ops : List ServOp, ServOp.reset ∉ ops → v + ops.length ≤ maxInt64 →
      ∀ last, v ≤ (runOps ops ⟨v, last⟩).counter := by
  have h1 : getNextServID v = (FormatInt10 (v + 1), v + 1) := by
    simp only [getNextServID, getCurServID]
    rw [atomicAdd_one v hlo hhi]
  refine ⟨h1, ?_, ?_, ?_⟩
  · simp only [getNextServName, h1, sprintfDash_base]
  · rw [h1]; simp
  · intro ops hno hroom last
    exact (runOps_counter ops ⟨v, last⟩ hno hlo hroom).1

/-- Witness for C6 at the counter value 41: the call returns `"42"`, the name is
`"go-pyroscope-demo-42"`, the counter is left at 42. -/
theorem getNextServID_sequential_witness :
    minInt64 ≤ 41 ∧ (41 : Int) < maxInt64 ∧
    getNextServID 41 = ("42", 42) ∧
    getNextServName 41 = ("go-pyroscope-demo-42", 42) :=
  ⟨by decide, by decide,
    (getNextServID_sequential 41 (by decide) (by decide)).1,
    (getNextServID_sequential 41 (by decide) (by decide)).2.1⟩

lemma runOps_lastNext (ops : List ServOp) :
    ∀ s : ServRun, (∀ r, s.lastNext = some r → (getCurServID s.counter).1 = r) →
      ∀ r, (runOps ops s).lastNext = some r →
        (getCurServID (runOps ops s).counter).1 = r := by
  induction ops with
  | nil => intro s hs r hr; exact hs r hr
  | cons o ops ih =>
    intro s hs r hr
    simp only [runOps, List.foldl_cons] at hr ⊢
    refine ih (stepOp s o) ?_ r hr
    intro r' hr'
    cases o with
    | reset => simp [stepOp] at hr'
    | cur => exact hs r' (by simpa [stepOp] using hr')
    | curName => exact hs r' (by simpa [stepOp] using hr')
    | next =>
      simp only [stepOp, Option.some.injEq] at hr'
      simp only [stepOp, getNextServID, getCurServID] at hr' ⊢
      exact hr'
    | nextName =>
      simp only [stepOp, Option.some.injEq] at hr'
      simp only [stepOp, getNextServName, getNextServID, getCurServID] at hr' ⊢
      exact hr'

/-- C7. `getCurServID` and `getCurServName` leave the counter unchanged;
directly after `resetServiceID`, `getCurServID` returns `"0"`; and after any
sequential run in which a `getNextServID` call was made since the last reset,
`getCurServID` returns the string that most recent call returned and
`getCurServName` returns `"go-pyroscope-demo-"` followed by it. -/
theorem getCurServID_readonly (c : Int) :
    (getCurServID c).2 = c ∧ (getCurServName c).2 = c ∧
    (getCurServID (resetServiceID c)).1 = "0" ∧
    ∀ (ops : List ServOp) (r : String),
      (runOps ops ⟨c, none⟩).lastNext = some r →
        (getCurServID (runOps ops ⟨c, none⟩).counter).1 = r ∧
        (getCurServName (runOps ops ⟨c, none⟩).counter).1 = "go-pyroscope-demo-" ++ r := by
  have h0 : (getCurServID (resetServiceID c)).1 = "0" := by
    simp only [resetServiceID]; decide
  refine ⟨rfl, rfl, h0, ?_⟩
  intro ops r hr
  have h := runOps_lastNext ops ⟨c, none⟩ (by simp) r hr
  refine ⟨h, ?_⟩
  simp only [getCurServName, sprintfDash_base, h]

/-- Witness for C7: reset, two `getNextServID` calls, a read, one
`getNextServName` call and two more reads. -/
theorem getCurServID_readonly_witness :
    (runOps [.reset, .next, .next, .cur, .nextName, .curName, .cur] ⟨9, none⟩).lastNext
        = some "3" ∧
    (getCurServID
        (runOps [.reset, .next, .next, .cur, .nextName, .curName, .cur] ⟨9, none⟩).counter).1
        = "3" :=
  ⟨by decide,
    ((getCurServID_readonly 9).2.2.2
      [.reset, .next, .next, .cur, .nextName, .curName, .cur] "3" (by decide)).1⟩

/-- C5. Two concurrent `getNextServID` calls after one `resetServiceID`,
interleaved as Add, Add, Load, Load: both calls return `"2"`, and no call
returns `"1"`. Run one after the other the same two calls return `"1"` and
`"2"`. -/
theorem getNextServID_interleaved_duplicate :
    returnedValues (runSchedule [0, 1, 0, 1] (initCalls 0 2)) = [some "2", some "2"] ∧
    returnedValues (runSchedule [0, 0, 1, 1] (initCalls 0 2)) = [some "1", some "2"] := by
  decide

/-! ## Theorems: the pprof label binder -/

lemma LabelMap.get_filter_ne (m : LabelMap) (k k' : String) (h : k' ≠ k) :
    LabelMap.get (m.filter fun p => p.1 != k) k' = LabelMap.get m k' := by
  induction m with
  | nil => rfl
  | cons p m ih =>
    obtain ⟨a, b⟩ := p
    unfold LabelMap.get at ih ⊢
    by_cases hak : a = k
    · subst hak
      have hne : (k' == a) = false := by simpa using h
      simp [List.filter_cons, List.lookup_cons, hne, ih]
    · have hk : (a != k) = true := by simpa using hak
      simp only [List.filter_cons, hk, if_true, List.lookup_cons]
      rw [ih]

lemma LabelMap.get_put_same (m : LabelMap) (k v : String) :
    (m.put k v).get k = some v := by
  simp [LabelMap.put, LabelMap.get, List.lookup_cons]

lemma LabelMap.get_put_ne (m : LabelMap) (k v k' : String) (h : k' ≠ k) :
    (m.put k v).get k' = m.get k' := by
  have hne : (k' == k) = false := by simpa using h
  have := LabelMap.get_filter_ne m k k' h
  unfold LabelMap.get at this ⊢
  simp only [LabelMap.put, List.lookup_cons, hne]
  exact this

/-- Whatever the tracer does, `Finish` on a wrapper with a previous context
binds that context's labels. -/
lemma Finish_labels {σ : Type} (tr : Tracer σ) (d : OtelTraceWrapper) (prev : Context)
    (h : d.PreviousPProfCTx = some prev) (g : Goroutine σ) :
    (d.Finish tr g).labels = prev.labels := by
  simp [OtelTraceWrapper.Finish, h, SetGoroutineLabels]

lemma StartSpanFromContext_prev {σ : Type} (tr : Tracer σ) (ctx : Context) (op : String)
    (opts : List SpanStartOption) (g : Goroutine σ) :
    (StartSpanFromContext tr ctx op opts g).1.PreviousPProfCTx = some ctx := rfl

lemma StartSpanFromContext_spanCtx {σ : Type} (tr : Tracer σ) (ctx : Context) (op : String)
    (opts : List SpanStartOption) (g : Goroutine σ) :
    (StartSpanFromContext tr ctx op opts g).1.SpanCtx = (tr.Start ctx op opts g).1.1 := rfl

/-- C1, as the code has it. For every tracer, every initial goroutine state
(label set `G` included), every context `ctx` and every properly nested
sequence run inside the outermost span, the goroutine label set after the
outermost `Finish` is the label set carried by the `ctx` given to the outermost
`StartSpanFromContext`; it is `G` when `G` is that set. -/
theorem outermost_Finish_restores_ctx_labels {σ : Type} (tr : Tracer σ) (g : Goroutine σ)
    (ambient ctx : Context) (op : String) (inner : Nest) :
    (runNest tr ambient (.span op (some ctx) inner .done) g).labels = ctx.labels ∧
    (g.labels = ctx.labels →
      (runNest tr ambient (.span op (some ctx) inner .done) g).labels = g.labels) := by
  have h : (runNest tr ambient (.span op (some ctx) inner .done) g).labels = ctx.labels := by
    simp only [runNest, Option.getD_some]
    exact Finish_labels tr _ ctx (StartSpanFromContext_prev tr ctx op [] g) _
  exact ⟨h, fun hg => h.trans hg.symm⟩

/-- Witness for the amended C1: a goroutine bound to the labels of `ctx`, two
nested spans and a sibling inside the outermost span. -/
theorem outermost_Finish_restores_ctx_labels_witness :
    (runNest countingTracer ⟨[], none⟩
      (.span "root" (some ⟨[("user", "alice")], none⟩)
        (.span "a" none (.span "b" none .done .done) (.span "c" none .done .done)) .done)
      ⟨[("user", "alice")], 0⟩).labels = [("user", "alice")] :=
  (outermost_Finish_restores_ctx_labels countingTracer ⟨[("user", "alice")], 0⟩ ⟨[], none⟩
    ⟨[("user", "alice")], none⟩ "root"
    (.span "a" none (.span "b" none .done .done) (.span "c" none .done .done))).2 rfl

/-- C1 as stated fails: a goroutine bound to `user=alice` runs one span started
from a context without labels; after `Finish` the goroutine has no label, so
the label set is not the initial one. -/
theorem outermost_Finish_not_initial_labels :
    LabelMap.get (runNest countingTracer ⟨[], none⟩
        (.span "root" (some ⟨[], none⟩) .done .done) ⟨[("user", "alice")], 0⟩).labels "user"
      = none ∧
    LabelMap.get [("user", "alice")] "user" = some "alice" ∧
    (runNest countingTracer ⟨[], none⟩
        (.span "root" (some ⟨[], none⟩) .done .done) ⟨[("user", "alice")], 0⟩).labels
      ≠ [("user", "alice")] := by
  decide

/-- After a span started from `outer.SpanCtx` finishes, the goroutine is bound
to the labels `outer.SpanCtx` carries: those of `ctx0` when the tracer's
`Start` leaves the labels carried by the context unchanged. -/
lemma inner_Finish_labels {σ : Type} (tr : Tracer σ)
    (hStart : ∀ c n o g, (tr.Start c n o g).1.1.labels = c.labels)
    (ctx0 : Context) (a b : String) (g : Goroutine σ) (body : Goroutine σ → Goroutine σ) :
    let outer := StartSpanFromContext tr ctx0 a [] g
    let inner := StartSpanFromContext tr outer.1.SpanCtx b [] outer.2
    (inner.1.Finish tr (body inner.2)).labels = ctx0.labels := by
  intro outer inner
  rw [Finish_labels tr inner.1 outer.1.SpanCtx rfl]
  exact hStart ctx0 a [] g

/-- C2, evaluated. The outer span is started from a context without labels and
the inner span from `outer.SpanCtx`, with a tracer whose `Start` leaves the
labels of the context unchanged. Right after the outer start the goroutine is
bound to the outer span's `span_id`, `trace_id` and `operation_name`; after
`inner.Finish()` it is bound to no label at all. -/
theorem inner_Finish_drops_outer_labels :
    outerSpan.2.labels = [("operation_name", "outer"),
      ("trace_id", "00000000000000000000000000000001"), ("span_id", "0000000000000001")] ∧
    outerSpan.1.SpanCtx.labels = emptyCtx.labels ∧
    (innerSpan.1.Finish countingTracer innerSpan.2).labels = [] ∧
    LabelMap.get (innerSpan.1.Finish countingTracer innerSpan.2).labels "span_id" = none ∧
    (innerSpan.1.Finish countingTracer innerSpan.2).labels ≠ outerSpan.2.labels := by
  decide

/-- C3. Right after `StartSpanFromContext(ctx, op)` returns the wrapper `w`, the
goroutine label set maps `span_id` to `Number2String` of `w`'s span id,
`trace_id` to `Number2String` of `w`'s trace id, `operation_name` to `op`, and
gives every other key the value it has in the labels carried by `ctx`. -/
theorem StartSpanFromContext_binds_labels {σ : Type} (tr : Tracer σ) (ctx : Context)
    (op : String) (opts : List SpanStartOption) (g : Goroutine σ) :
    let w := (StartSpanFromContext tr ctx op opts g).1
    let after := (StartSpanFromContext tr ctx op opts g).2
    after.labels.get "span_id" = some (Number2String (.spanID w.Span.spanContext.spanID)) ∧
    after.labels.get "trace_id" = some (Number2String (.traceID w.Span.spanContext.traceID)) ∧
    after.labels.get "operation_name" = some op ∧
    ∀ k : String, k ≠ "span_id" → k ≠ "trace_id" → k ≠ "operation_name" →
      after.labels.get k = ctx.labels.get k := by
  intro w after
  simp only [after, w, StartSpanFromContext, SetGoroutineLabels, WithLabels, List.foldl_cons,
    List.foldl_nil]
  refine ⟨?_, ?_, ?_, ?_⟩
  · rw [LabelMap.get_put_ne _ _ _ _ (by decide), LabelMap.get_put_ne _ _ _ _ (by decide),
      LabelMap.get_put_same]
  · rw [LabelMap.get_put_ne _ _ _ _ (by decide), LabelMap.get_put_same]
  · rw [LabelMap.get_put_same]
  · intro k h1 h2 h3
    rw [LabelMap.get_put_ne _ _ _ _ h3, LabelMap.get_put_ne _ _ _ _ h2,
      LabelMap.get_put_ne _ _ _ _ h1]

/-- Witness for C3: a context that already carries `user` and a stale
`span_id`; `user` is kept, `span_id` is overridden. -/
theorem StartSpanFromContext_binds_labels_witness :
    LabelMap.get (StartSpanFromContext countingTracer
        ⟨[("user", "alice"), ("span_id", "stale")], none⟩ "op" [] ⟨[("x", "y")], 4⟩).2.labels
      "user" = LabelMap.get [("user", "alice"), ("span_id", "stale")] "user" ∧
    LabelMap.get (StartSpanFromContext countingTracer
        ⟨[("user", "alice"), ("span_id", "stale")], none⟩ "op" [] ⟨[("x", "y")], 4⟩).2.labels
      "span_id" = some "0000000000000005" :=
  ⟨(StartSpanFromContext_binds_labels countingTracer
      ⟨[("user", "alice"), ("span_id", "stale")], none⟩ "op" [] ⟨[("x", "y")], 4⟩).2.2.2
      "user" (by decide) (by decide) (by decide),
    by decide⟩

/-- C4, as the code has it. `Finish` on a wrapper returned by
`StartSpanFromContext(ctx, op)` binds the labels carried by `ctx` in whatever
state it is called, the second time as the first; so a second `Finish` right
after the first leaves the goroutine label set unchanged, and more generally
it does so in every state whose label set is still the one `ctx` carries. -/
theorem second_Finish_rebinds_ctx_labels {σ : Type} (tr : Tracer σ) (ctx : Context)
    (op : String) (opts : List SpanStartOption) (g0 g : Goroutine σ) :
    let w := (StartSpanFromContext tr ctx op opts g0).1
    (w.Finish tr g).labels = ctx.labels ∧
    (w.Finish tr (w.Finish tr g)).labels = (w.Finish tr g).labels ∧
    (g.labels = ctx.labels → (w.Finish tr g).labels = g.labels) := by
  intro w
  have h : ∀ s : Goroutine σ, (w.Finish tr s).labels = ctx.labels := fun s =>
    Finish_labels tr w ctx (StartSpanFromContext_prev tr ctx op opts g0) s
  exact ⟨h g, by rw [h, h], fun hg => by rw [h, hg]⟩

/-- Witness for the amended C4. -/
theorem second_Finish_rebinds_ctx_labels_witness :
    ((StartSpanFromContext countingTracer ⟨[("user", "alice")], none⟩ "w" []
        ⟨[], 0⟩).1.Finish countingTracer ⟨[("user", "alice")], 1⟩).labels
      = [("user", "alice")] :=
  (second_Finish_rebinds_ctx_labels countingTracer ⟨[("user", "alice")], none⟩ "w" []
    ⟨[], 0⟩ ⟨[("user", "alice")], 1⟩).2.2 rfl

/-- C4 as stated fails: `w` is started and finished, then a span `s` is started
and is still open; a second `w.Finish()` unbinds the labels `s` bound. -/
theorem second_Finish_clobbers_open_span :
    LabelMap.get laterSpan.2.labels "operation_name" = some "s" ∧
    LabelMap.get (firstSpan.1.Finish countingTracer laterSpan.2).labels "operation_name"
      = none ∧
    (firstSpan.1.Finish countingTracer laterSpan.2).labels ≠ laterSpan.2.labels := by
  decide

/-! ## Theorems: the `/movies` handler joins before the root span ends -/

lemma Request.inv_init : Request.init.Inv := by
  simp [Request.Inv, Request.init, HandlerPC.pastWait]

lemma Request.inv_step (s : Request) (t : Thread) (h : s.Inv) :
    ((stepThread s t).getD s).Inv := by
  obtain ⟨pc, fib, http, wg, so, se⟩ := s
  obtain ⟨h1, h2, h3⟩ := h
  cases t <;> cases pc <;> cases fib <;> cases http <;>
    simp_all [Request.Inv, stepThread, stepHandler, stepTask, HandlerPC.pastWait, TaskPC.owes]

lemma Request.inv_run (sched : List Thread) :
    ∀ s : Request, s.Inv → (runRequest sched s).Inv := by
  induction sched with
  | nil => intro s h; exact h
  | cons t sched ih =>
    intro s h
    simp only [runRequest, List.foldl_cons]
    exact ih _ (Request.inv_step s t h)

/-- C8. In every state a `/movies` request can reach, under every schedule of
the handler and the two spawned tasks: the root span is ended only once the
handler has returned from `wg.Wait()`; the handler is past `wg.Wait()` only when
both tasks have called `wg.Done()`; so the root span is never ended while a
task has not signalled; and while a task has not signalled, the handler at
`wg.Wait()` cannot move. -/
theorem root_span_ends_after_join (sched : List Thread) :
    ((runRequest sched Request.init).spanEnded = true →
      (runRequest sched Request.init).pc = .exited) ∧
    ((runRequest sched Request.init).pc.pastWait = true →
      (runRequest sched Request.init).fib = .signalled ∧
      (runRequest sched Request.init).http = .signalled) ∧
    ((runRequest sched Request.init).spanEnded = true →
      (runRequest sched Request.init).fib = .signalled ∧
      (runRequest sched Request.init).http = .signalled) ∧
    ((runRequest sched Request.init).pc = .wgWait →
      (runRequest sched Request.init).fib ≠ .signalled ∨
        (runRequest sched Request.init).http ≠ .signalled →
      stepThread (runRequest sched Request.init) .handler = none) := by
  have h := Request.inv_run sched Request.init Request.inv_init
  generalize runRequest sched Request.init = s at h
  obtain ⟨pc, fib, http, wg, so, se⟩ := s
  obtain ⟨h1, h2, h3⟩ := h
  refine ⟨h1, h2, fun he => h2 (by simp_all [HandlerPC.pastWait]), ?_⟩
  intro hpc hor
  simp only at hpc
  subst hpc
  cases fib <;> cases http <;>
    simp_all [stepThread, stepHandler, HandlerPC.pastWait, TaskPC.owes]

/-- Witness for C8: a full run of `sampleSchedule` ends the root span, with
both tasks signalled; cut before the fibonacci task's `wg.Done()`, the handler
is held at `wg.Wait()` and the span is not ended. -/
theorem root_span_ends_after_join_witness :
    (runRequest sampleSchedule Request.init).spanEnded = true ∧
    (runRequest sampleSchedule Request.init).fib = .signalled ∧
    (runRequest sampleSchedule Request.init).http = .signalled ∧
    (runRequest (sampleSchedule.take 11) Request.init).pc = .wgWait ∧
    (runRequest (sampleSchedule.take 11) Request.init).spanEnded = false :=
  ⟨by decide, ((root_span_ends_after_join sampleSchedule).2.2.1 (by decide)).1,
    ((root_span_ends_after_join sampleSchedule).2.2.1 (by decide)).2, by decide, by decide⟩

/-! ## Theorems: the `q` filter -/

/-- The state of the filter loop after the indices below `i + 1`: the first
`matchCount` cells hold the matching movies of indices `1..i`, the cells from
`i + 1` on are untouched. -/
lemma filterLoop_inv (ToUpper : String → String) (q : String) (l : List Movie) :
    ∀ i, i + 1 ≤ l.length →
      let st := (List.range (i + 1)).foldl (filterBody ToUpper q) (l, 0)
      st.1.length = l.length ∧ st.2 < i + 1 ∧
      st.1.take st.2 =
        ((l.take (i + 1)).tail.filter fun m => stringsContains (ToUpper m.Title) q) ∧
      st.1.drop (i + 1) = l.drop (i + 1) := by
  intro i
  induction i with
  | zero =>
    intro hi
    obtain ⟨a, l', rfl⟩ : ∃ a l', l = a :: l' := by
      cases l with
      | nil => simp at hi
      | cons a l' => exact ⟨a, l', rfl⟩
    simp [List.range_succ, filterBody]
  | succ i ih =>
    intro hi
    have ih' := ih (by omega)
    rw [List.range_succ, List.foldl_append]
    generalize (List.range (i + 1)).foldl (filterBody ToUpper q) (l, 0) = st at ih' ⊢
    obtain ⟨arr, c⟩ := st
    obtain ⟨hlen, hc, htake, hdrop⟩ := ih'
    simp only at hlen hc htake hdrop
    have hget : arr[i + 1]? = l[i + 1]? := by
      have := congrArg (fun x => x[0]?) hdrop
      simpa [List.getElem?_drop] using this
    have hl : l[i + 1]? = some (l[i + 1]) := List.getElem?_eq_getElem (by omega)
    have htk : (l.take (i + 1 + 1)).tail = (l.take (i + 1)).tail ++ [l[i + 1]] := by
      rw [List.take_succ, hl]
      simp only [Option.toList]
      apply List.tail_append_of_ne_nil
      intro hnil
      rcases List.take_eq_nil_iff.mp hnil with h | h
      · omega
      · subst h; simp at hi
    have hdrop' : arr.drop (i + 1 + 1) = l.drop (i + 1 + 1) := by
      have := congrArg List.tail hdrop
      simpa [List.tail_drop] using this
    simp only [List.foldl_cons, List.foldl_nil, filterBody, hget, hl]
    by_cases hp : stringsContains (ToUpper (l[i + 1]).Title) q = true
    · have hne : (i + 1 != c) = true := by simp; omega
      simp only [hp, hne, Bool.and_self, if_true]
      refine ⟨by simp [hlen], by omega, ?_, ?_⟩
      · rw [List.take_succ, List.set_take, List.set_eq_of_length_le (by simp),
          List.getElem?_set_self (by omega), htk, List.filter_append, htake]
        simp [hp]
      · rw [List.drop_set_of_lt _ _ (by omega)]
        exact hdrop'
    · have hp' : stringsContains (ToUpper (l[i + 1]).Title) q = false := by simpa using hp
      simp only [hp', Bool.false_and, if_false, Bool.false_eq_true]
      refine ⟨hlen, by omega, ?_, hdrop'⟩
      rw [htk, List.filter_append, htake]
      simp [hp']

/-- For a non-empty `q` the handler's filter returns the matching movies of the
sorted copy without its first cell: the movie at index 0 is never kept. -/
lemma filterMovies_eq_tail_filter (ToUpper : String → String) (q : String) (hq : q ≠ "")
    (l : List Movie) :
    filterMovies ToUpper q l = matchingMovies ToUpper q l.tail := by
  have hq' : (q != "") = true := by simpa using hq
  simp only [filterMovies, hq', if_true, matchingMovies]
  cases hl : l.length with
  | zero =>
    have : l = [] := List.length_eq_zero.mp hl
    subst this
    simp
  | succ n =>
    have h := filterLoop_inv ToUpper (ToUpper q) l n (by omega)
    simp only at h
    rw [h.2.2.1, hl.symm, List.take_length]

/-- C9, evaluated. With `q = "alien"` and the sorted copy `Alien`, `Heat`,
`Aliens`, the handler encodes `Aliens` alone: the matching movie at index 0 is
dropped, where the matching movies are `Alien` and `Aliens`. -/
theorem filterMovies_drops_index_zero :
    filterMovies asciiToUpper "alien" sampleMovies = [⟨"Aliens", 7, "1986-07-18"⟩] ∧
    matchingMovies asciiToUpper "alien" sampleMovies
      = [⟨"Alien", 8, "1979-05-25"⟩, ⟨"Aliens", 7, "1986-07-18"⟩] ∧
    filterMovies asciiToUpper "alien" sampleMovies
      ≠ matchingMovies asciiToUpper "alien" sampleMovies := by
  decide

/-! ## Theorems: `fibonacci` -/

lemma fibSpec_eq_fib : ∀ n : Nat, fibSpec n = Nat.fib n
  | 0 => rfl
  | 1 => rfl
  | 2 => rfl
  | n + 3 => by
    rw [fibSpec, fibSpec_eq_fib (n + 2), fibSpec_eq_fib (n + 1), Nat.fib_add_two (n := n + 1),
      Nat.add_comm]

lemma fibSpec_mono {a b : Nat} (h : a ≤ b) : fibSpec a ≤ fibSpec b := by
  rw [fibSpec_eq_fib, fibSpec_eq_fib]
  exact Nat.fib_mono h

lemma fibonacciOn_small (wrap : Int → Int) (n : Int) (h : n ≤ 2) :
    fibonacciOn wrap n = 1 := by
  rw [fibonacciOn]
  simp [h]

lemma fibonacciWithTraceOn_eq (wrap : Int → Int) (n : Int) :
    fibonacciWithTraceOn wrap n
      = wrap (fibonacciOn wrap (n - 1) + fibonacciOn wrap (n - 2)) := by
  rw [fibonacciWithTraceOn]

/-- When the addition is exact up to `B`, `fibonacciOn` computes `fibSpec` as
long as the result stays within `B`. -/
lemma fibonacciOn_eq_fibSpec (wrap : Int → Int) (B : Nat)
    (hw : ∀ x : Nat, x ≤ B → wrap (x : Int) = x) :
    ∀ k : Nat, 1 ≤ k → fibSpec k ≤ B → fibonacciOn wrap (k : Int) = (fibSpec k : Int) := by
  intro k
  induction k using Nat.strong_induction_on with
  | _ k ih =>
    intro hk hB
    by_cases h2 : k ≤ 2
    · rw [fibonacciOn_small wrap k (by omega)]
      interval_cases k <;> rfl
    · obtain ⟨j, rfl⟩ : ∃ j, k = j + 3 := ⟨k - 3, by omega⟩
      have hle : ∀ m, m ≤ j + 3 → fibSpec m ≤ B := fun m hm => (fibSpec_mono hm).trans hB
      have e1 : ((j + 3 : Nat) : Int) - 1 = ((j + 2 : Nat) : Int) := by push_cast; ring
      have e2 : ((j + 3 : Nat) : Int) - 2 = ((j + 1 : Nat) : Int) := by push_cast; ring
      have hsum : ∀ m : Nat, m + 2 ≤ j + 3 →
          wrap (((fibSpec (m + 1) : Nat) : Int) + ((fibSpec m : Nat) : Int))
            = ((fibSpec (m + 2) : Nat) : Int) := by
        intro m hm
        have hrec : fibSpec (m + 2) = fibSpec (m + 1) + fibSpec m := by
          cases m with
          | zero => rfl
          | succ m => rw [fibSpec]
        rw [hrec]
        have := hw (fibSpec (m + 1) + fibSpec m) (hrec ▸ hle (m + 2) hm)
        push_cast at this ⊢
        exact this
      have hdirect : wrap (fibonacciOn wrap ((j + 3 : Nat) - 1 : Int)
          + fibonacciOn wrap ((j + 3 : Nat) - 2 : Int)) = ((fibSpec (j + 3) : Nat) : Int) := by
        rw [e1, e2, ih (j + 2) (by omega) (by omega) (hle _ (by omega)),
          ih (j + 1) (by omega) (by omega) (hle _ (by omega))]
        exact hsum (j + 1) (by omega)
      have hdetour : 2 ≤ j →
          wrap (fibonacciWithTraceOn wrap ((j + 3 : Nat) - 1 : Int)
            + fibonacciWithTraceOn wrap ((j + 3 : Nat) - 2 : Int))
            = ((fibSpec (j + 3) : Nat) : Int) := by
        intro hj
        obtain ⟨i, rfl⟩ : ∃ i, j = i + 2 := ⟨j - 2, by omega⟩
        have e3 : ((i + 2 + 2 : Nat) : Int) - 1 = ((i + 2 + 1 : Nat) : Int) := by push_cast; ring
        have e4 : ((i + 2 + 2 : Nat) : Int) - 2 = ((i + 2 : Nat) : Int) := by push_cast; ring
        have e5 : ((i + 2 + 1 : Nat) : Int) - 1 = ((i + 2 : Nat) : Int) := by push_cast; ring
        have e6 : ((i + 2 + 1 : Nat) : Int) - 2 = ((i + 1 : Nat) : Int) := by push_cast; ring
        rw [e1, e2, fibonacciWithTraceOn_eq, fibonacciWithTraceOn_eq, e3, e4, e5, e6,
          ih (i + 2 + 1) (by omega) (by omega) (hle _ (by omega)),
          ih (i + 2) (by omega) (by omega) (hle _ (by omega)),
          ih (i + 1) (by omega) (by omega) (hle _ (by omega)),
          hsum (i + 2) (by omega), hsum (i + 1) (by omega)]
        exact hsum (i + 2 + 1) (by omega)
      have hmod : ∀ d : Int, 5 ≤ d → ((j + 3 : Nat) : Int).tmod d = 0 → 2 ≤ j := by
        intro d hd hm
        by_contra hj
        have hlt : ((j + 3 : Nat) : Int) < d := by push_cast; omega
        rw [Int.tmod_eq_of_lt (by positivity) hlt] at hm
        omega
      rw [fibonacciOn]
      have hn : ¬ ((j + 3 : Nat) : Int) ≤ 2 := by push_cast; omega
      simp only [hn, dite_false]
      split
      · next h31 => exact hdetour (hmod 31 (by norm_num) h31)
      · split
        · next h37 => exact hdetour (hmod 37 (by norm_num) h37)
        · exact hdirect

lemma fibSpec_92 : fibSpec 92 = 7540113804746346429 := by
  rw [fibSpec_eq_fib]; norm_num

/-- C10. `fibonacci` is a total function (it terminates for every integer `n`),
it returns 1 for every `n <= 2`, and for every `n >= 1` it returns the `n`-th
Fibonacci number, the detours through `fibonacciWithTrace` (which returns
`fibonacci(n-1) + fibonacci(n-2)`) included: with unbounded integers for every
`n >= 1`, with 64-bit integers for `1 <= n <= 92`; and `fibonacci(42)` is
`267914296`. -/
theorem fibonacci_computes_fib :
    (∀ n : Int, n ≤ 2 → fibonacciUnbounded n = 1 ∧ fibonacci n = 1) ∧
    (∀ n : Int, 1 ≤ n → fibonacciUnbounded n = (fibSpec n.toNat : Int)) ∧
    (∀ n : Int, 1 ≤ n → n ≤ 92 → fibonacci n = (fibSpec n.toNat : Int)) ∧
    (∀ n : Int, fibonacciWithTrace n = wrapInt64 (fibonacci (n - 1) + fibonacci (n - 2))) ∧
    fibonacci 42 = 267914296 ∧ fibonacciUnbounded 42 = 267914296 ∧
    fibonacci 31 = 1346269 ∧ fibonacci 37 = 24157817 := by
  have hU : ∀ n : Int, 1 ≤ n → fibonacciUnbounded n = (fibSpec n.toNat : Int) := by
    intro n hn
    obtain ⟨k, rfl⟩ : ∃ k : Nat, n = k := ⟨n.toNat, by omega⟩
    simp only [Int.toNat_ofNat]
    exact fibonacciOn_eq_fibSpec id (fibSpec k) (fun _ _ => rfl) k (by omega) le_rfl
  have h64 : ∀ n : Int, 1 ≤ n → n ≤ 92 → fibonacci n = (fibSpec n.toNat : Int) := by
    intro n hn hn'
    obtain ⟨k, rfl⟩ : ∃ k : Nat, n = k := ⟨n.toNat, by omega⟩
    simp only [Int.toNat_ofNat]
    refine fibonacciOn_eq_fibSpec wrapInt64 (fibSpec 92) ?_ k (by omega)
      (fibSpec_mono (by omega))
    intro x hx
    rw [fibSpec_92] at hx
    apply wrapInt64_of_inRange
    · unfold minInt64; omega
    · unfold maxInt64; omega
  have f42 : fibSpec 42 = 267914296 := by rw [fibSpec_eq_fib]; norm_num
  have f31 : fibSpec 31 = 1346269 := by rw [fibSpec_eq_fib]; norm_num
  have f37 : fibSpec 37 = 24157817 := by rw [fibSpec_eq_fib]; norm_num
  refine ⟨fun n hn => ⟨fibonacciOn_small id n hn, fibonacciOn_small wrapInt64 n hn⟩, hU, h64,
    fun n => fibonacciWithTraceOn_eq wrapInt64 n, ?_, ?_, ?_, ?_⟩
  · rw [h64 42 (by norm_num) (by norm_num)]; simp [f42]
  · rw [hU 42 (by norm_num)]; simp [f42]
  · rw [h64 31 (by norm_num) (by norm_num)]; simp [f31]
  · rw [h64 37 (by norm_num) (by norm_num)]; simp [f37]

/-- Witness for C10: 62 is divisible by 31 and 74 by 37, so both calls take
the detour through `fibonacciWithTrace`. -/
theorem fibonacci_computes_fib_witness :
    fibonacci 62 = (fibSpec (62 : Int).toNat : Int) ∧
    fibonacci 74 = (fibSpec (74 : Int).toNat : Int) :=
  ⟨fibonacci_computes_fib.2.2.1 62 (by decide) (by decide),
    fibonacci_computes_fib.2.2.1 74 (by decide) (by decide)⟩

end PyroscopeDemo
